import Mathlib

/-!
Verification development for the timesheet wide-to-long parser
(`data_processor.py`).  The parser is shallowly embedded: a raw spreadsheet
cell is `Option String` (`none` is a missing value, pandas `NaN`), a grid is
the list of its rows, and every function of the source file
(`load_and_clean_data`, `parse_custom_date`, `clean_minutes`,
`check_billable`) is translated into an executable Lean function.
-/

/-- Characters matched by Python's `str.strip()` and the regex class `\s`
(ASCII range): space, tab, newline, carriage return, vertical tab, form feed. -/
def pyIsSpace (c : Char) : Bool :=
  c == ' ' || c == '\t' || c == '\n' || c == '\r' || c == Char.ofNat 11 || c == Char.ofNat 12

/-- Python `str.strip()`: remove leading and trailing whitespace. -/
def pyStrip (s : String) : String :=
  String.mk (((s.toList.dropWhile pyIsSpace).reverse.dropWhile pyIsSpace).reverse)

/-- Python `str.lower()` (ASCII case folding, which covers all inputs used here). -/
def pyLower (s : String) : String :=
  String.mk (s.toList.map Char.toLower)

/-- Does the first list occur as a starting segment of the second? -/
def startsWithL : List Char → List Char → Bool
  | [], _ => true
  | _ :: _, [] => false
  | a :: as, b :: bs => a == b && startsWithL as bs

/-- Substring occurrence on character lists (Python's `needle in hay`). -/
def containsSubL (needle : List Char) : List Char → Bool
  | [] => needle.isEmpty
  | c :: cs => startsWithL needle (c :: cs) || containsSubL needle cs

/-- Python's case-sensitive substring test `needle in hay`. -/
def containsSub (needle hay : String) : Bool :=
  containsSubL needle.toList hay.toList

/-- A raw spreadsheet cell: `none` models a missing value (pandas `NaN`). -/
abbrev Cell := Option String

/-- Python `str()` applied to a cell: `str(nan)` renders as `"nan"`. -/
def pyStrCell : Cell → String
  | none => "nan"
  | some s => s

/-- A value stored in a reconstructed record field before coercion: a missing
value, a string cell, or the integer default `0` used for `Work Time (Mins)`. -/
inductive PyVal where
  | na
  | str (s : String)
  | int (n : Int)
deriving DecidableEq

/-- Python `str()` on a field value. -/
def pyStrVal : PyVal → String
  | .na => "nan"
  | .str s => s
  | .int n => toString n

/-- `pd.isna`. -/
def pd_isna : PyVal → Bool
  | .na => true
  | _ => false

/-- The field value read from a grid cell. -/
def cellVal : Cell → PyVal
  | none => .na
  | some s => .str s

/-- The raw grid produced by `pd.read_csv(file_path, header=None)`:
a list of rows of cells. -/
structure Grid where
  rows : List (List Cell)
deriving DecidableEq

/-- Number of rows (`df_raw.shape[0]`). -/
def Grid.nrows (g : Grid) : Nat := g.rows.length

/-- Number of columns (`df_raw.shape[1]`): the width of the widest row,
shorter rows being NaN-padded by the loader. -/
def Grid.ncols (g : Grid) : Nat := (g.rows.map List.length).foldr Nat.max 0

/-- Cell at row `r`, column `c`; positions beyond a row's extent are `NaN`. -/
def rowCell (g : Grid) (r c : Nat) : Cell :=
  match g.rows.get? r with
  | none => none
  | some row => (row.get? c).join

/-- Take the maximal leading run of decimal digits. -/
def takeDigits : List Char → List Char × List Char
  | [] => ([], [])
  | c :: cs =>
    if c.isDigit then
      let p := takeDigits cs
      (c :: p.1, p.2)
    else ([], c :: cs)

/-- Value of a digit run. -/
def digitsToNat (ds : List Char) : Nat :=
  ds.foldl (fun n c => 10 * n + (c.toNat - 48)) 0

/-- The exact rational value of a parsed decimal literal: sign, mantissa
digits, number of fractional digits, exponent; the remaining input (after
optional trailing whitespace) must be empty. -/
def floatFinish (sgn : Int) (ds : List Char) (fracLen : Nat) (e : Int) (rest : List Char) :
    Option Rat :=
  if (rest.dropWhile pyIsSpace).isEmpty then
    let scale : Int := e - (fracLen : Int)
    let m : Int := sgn * (digitsToNat ds : Int)
    if 0 ≤ scale then some ((m * (10 : Int) ^ scale.toNat : Int) : Rat)
    else some ((m : Rat) / ((10 : Rat) ^ (-scale).toNat))
  else none

/-- Parse an exponent tail (`e`/`E` already consumed): optional sign, then at
least one digit. -/
def floatExpTail (sgn : Int) (ds : List Char) (fracLen : Nat) (cs : List Char) : Option Rat :=
  let sp : Int × List Char :=
    match cs with
    | '+' :: r => (1, r)
    | '-' :: r => (-1, r)
    | _ => (1, cs)
  let q := takeDigits sp.2
  if q.1.isEmpty then none
  else floatFinish sgn ds fracLen (sp.1 * (digitsToNat q.1 : Int)) q.2

/-- Parse an optional exponent part after the mantissa. -/
def floatAfterMant (sgn : Int) (ds : List Char) (fracLen : Nat) (cs : List Char) : Option Rat :=
  match cs with
  | 'e' :: rest => floatExpTail sgn ds fracLen rest
  | 'E' :: rest => floatExpTail sgn ds fracLen rest
  | _ => floatFinish sgn ds fracLen 0 cs

/-- Python `float(s)` on decimal literals: optional surrounding whitespace, an
optional sign, a mantissa (`123`, `1.25`, `.5`, `5.`) with an optional
exponent.  `none` models `ValueError`. -/
def pyFloat? (s : String) : Option Rat :=
  let cs := s.toList.dropWhile pyIsSpace
  let sgncs : Int × List Char :=
    match cs with
    | '+' :: r => (1, r)
    | '-' :: r => (-1, r)
    | _ => (1, cs)
  let p := takeDigits sgncs.2
  match p.2 with
  | '.' :: r2 =>
    let q := takeDigits r2
    if p.1.isEmpty && q.1.isEmpty then none
    else floatAfterMant sgncs.1 (p.1 ++ q.1) q.1.length q.2
  | _ =>
    if p.1.isEmpty then none
    else floatAfterMant sgncs.1 p.1 0 p.2

/-- Python `s.replace(",", "")`: remove every comma. -/
def removeCommas (s : String) : String :=
  String.mk (s.toList.filter (fun c => c != ','))

/-- `clean_minutes` from `data_processor.py`: blank or missing gives `0`,
commas are stripped, an unparsable string gives `0`. -/
def clean_minutes (x : PyVal) : Rat :=
  if pd_isna x then 0
  else if pyStrip (pyStrVal x) = "" then 0
  else
    match pyFloat? (removeCommas (pyStrVal x)) with
    | some q => q
    | none => 0

/-- The keyword list from `data_processor.py`. -/
def billable_keywords : List String := ["Training", "Assessment", "Content", "Development"]

/-- `check_billable` from `data_processor.py`. -/
def check_billable (cat : PyVal) : Bool :=
  billable_keywords.any (fun k => containsSub (pyLower k) (pyLower (pyStrVal cat)))

/-- A parsed calendar date (`datetime` restricted to its date part). -/
structure PDate where
  year : Nat
  month : Nat
  day : Nat
deriving DecidableEq

/-- Gregorian leap year. -/
def isLeap (y : Nat) : Bool := y % 4 == 0 && (y % 100 != 0 || y % 400 == 0)

/-- Days in a month. -/
def daysInMonth (y m : Nat) : Nat :=
  if m == 2 then (if isLeap y then 29 else 28)
  else if m == 4 || m == 6 || m == 9 || m == 11 then 30
  else 31

/-- Case-insensitive starting-segment test (strptime matches names ignoring case). -/
def startsWithCI : List Char → List Char → Bool
  | [], _ => true
  | _ :: _, [] => false
  | a :: as, b :: bs => a.toLower == b.toLower && startsWithCI as bs

/-- Match one of a list of names at the head of the input, returning its 1-based
index and the rest of the input. -/
def matchName : List String → Nat → List Char → Option (Nat × List Char)
  | [], _, _ => none
  | n :: ns, i, cs =>
    if startsWithCI n.toList cs then some (i, cs.drop n.length) else matchName ns (i + 1) cs

/-- Abbreviated weekday names recognised by `%a`. -/
def weekdayAbbrevs : List String := ["Mon", "Tue", "Wed", "Thu", "Fri", "Sat", "Sun"]

/-- Abbreviated month names recognised by `%b`. -/
def monthAbbrevs : List String :=
  ["Jan", "Feb", "Mar", "Apr", "May", "Jun", "Jul", "Aug", "Sep", "Oct", "Nov", "Dec"]

/-- One or more whitespace characters (a whitespace run in a strptime format). -/
def skipWs1 : List Char → Option (List Char)
  | c :: rest => if pyIsSpace c then some (rest.dropWhile pyIsSpace) else none
  | [] => none

/-- Read one or two digits greedily (`%d`). -/
def take2Digits : List Char → Option (Nat × List Char)
  | c1 :: rest =>
    if c1.isDigit then
      match rest with
      | c2 :: rest2 =>
        if c2.isDigit then some ((c1.toNat - 48) * 10 + (c2.toNat - 48), rest2)
        else some (c1.toNat - 48, c2 :: rest2)
      | [] => some (c1.toNat - 48, [])
    else none
  | [] => none

/-- `datetime.strptime(s, "%a, %b %d, %y")` reduced to its date: abbreviated
weekday, comma, whitespace, abbreviated month, whitespace, 1-2 digit day,
comma, whitespace, exactly two year digits, end of string.  `%y` maps 00-68 to
2000-2068 and 69-99 to 1969-1999; the day is validated against the month;
`none` models `ValueError`. -/
def pyStrptimeADY (s : String) : Option PDate :=
  match matchName weekdayAbbrevs 1 s.toList with
  | none => none
  | some (_, r1) =>
    match r1 with
    | ',' :: r2 =>
      match skipWs1 r2 with
      | none => none
      | some r3 =>
        match matchName monthAbbrevs 1 r3 with
        | none => none
        | some (m, r4) =>
          match skipWs1 r4 with
          | none => none
          | some r5 =>
            match take2Digits r5 with
            | none => none
            | some (d, r6) =>
              match r6 with
              | ',' :: r7 =>
                match skipWs1 r7 with
                | none => none
                | some r8 =>
                  match r8 with
                  | y1 :: y2 :: r9 =>
                    if y1.isDigit && y2.isDigit && r9.isEmpty then
                      let yy := (y1.toNat - 48) * 10 + (y2.toNat - 48)
                      let year := if yy ≤ 68 then 2000 + yy else 1900 + yy
                      if 1 ≤ d && d ≤ daysInMonth year m then some ⟨year, m, d⟩ else none
                    else none
                  | _ => none
              | _ => none
    | _ => none

/-- Is `ab` one of the ordinal suffix pairs `st`, `nd`, `rd`, `th`? -/
def isOrdPair (a b : Char) : Bool :=
  (a == 's' && b == 't') || (a == 'n' && b == 'd') || (a == 'r' && b == 'd') || (a == 't' && b == 'h')

/-- `re.sub(r'(\d+)(st|nd|rd|th)', r'\1', s)` on the character list: an ordinal
suffix immediately following a digit is removed, scanning left to right. -/
def stripOrdinalsL : List Char → List Char
  | [] => []
  | [c] => [c]
  | c :: a :: rest =>
    if c.isDigit then
      match rest with
      | b :: rest2 =>
        if isOrdPair a b then c :: stripOrdinalsL rest2
        else c :: stripOrdinalsL (a :: b :: rest2)
      | [] => [c, a]
    else c :: stripOrdinalsL (a :: rest)

/-- Ordinal-suffix removal on strings. -/
def stripOrdinals (s : String) : String := String.mk (stripOrdinalsL s.toList)

/-- `parse_custom_date` from `data_processor.py`: strip ordinal suffixes, then
parse with `"%a, %b %d, %y"`; any failure yields the null date (`pd.NaT`). -/
def parse_custom_date (s : String) : Option PDate :=
  pyStrptimeADY (stripOrdinals s)

/-- Sakamoto weekday table. -/
def sakamotoT (m : Nat) : Nat :=
  match m with
  | 1 => 0 | 2 => 3 | 3 => 2 | 4 => 5 | 5 => 0 | 6 => 3
  | 7 => 5 | 8 => 1 | 9 => 4 | 10 => 6 | 11 => 2 | 12 => 4
  | _ => 0

/-- Day of week, `0` = Sunday (Sakamoto's congruence). -/
def dayOfWeekNum (y m d : Nat) : Nat :=
  let y2 := if m < 3 then y - 1 else y
  (y2 + y2 / 4 - y2 / 100 + y2 / 400 + sakamotoT m + d) % 7

/-- `Series.dt.day_name()` values. -/
def dayNameOf (w : Nat) : String :=
  match w with
  | 0 => "Sunday" | 1 => "Monday" | 2 => "Tuesday" | 3 => "Wednesday"
  | 4 => "Thursday" | 5 => "Friday" | 6 => "Saturday"
  | _ => ""

/-- `strftime('%B')` month names. -/
def monthNameOf (m : Nat) : String :=
  match m with
  | 1 => "January" | 2 => "February" | 3 => "March" | 4 => "April"
  | 5 => "May" | 6 => "June" | 7 => "July" | 8 => "August"
  | 9 => "September" | 10 => "October" | 11 => "November" | 12 => "December"
  | _ => ""

/-- Days preceding month `m` in a non-leap year. -/
def monthDaysBefore (m : Nat) : Nat :=
  match m with
  | 1 => 0 | 2 => 31 | 3 => 59 | 4 => 90 | 5 => 120 | 6 => 151
  | 7 => 181 | 8 => 212 | 9 => 243 | 10 => 273 | 11 => 304 | 12 => 334
  | _ => 0

/-- 1-based ordinal day of the year. -/
def dayOfYear (y m d : Nat) : Nat :=
  monthDaysBefore m + d + (if 2 < m && isLeap y then 1 else 0)

/-- ISO weekday, `1` = Monday .. `7` = Sunday. -/
def isoWeekday (y m d : Nat) : Nat :=
  let w := dayOfWeekNum y m d
  if w == 0 then 7 else w

/-- Auxiliary congruence for the ISO week count. -/
def isoP (y : Nat) : Nat := (y + y / 4 - y / 100 + y / 400) % 7

/-- Number of ISO weeks in year `y` (52 or 53). -/
def isoWeeksInYear (y : Nat) : Nat :=
  52 + (if isoP y == 4 || isoP (y - 1) == 3 then 1 else 0)

/-- ISO week number (`Series.dt.isocalendar().week`). -/
def isoWeek (y m d : Nat) : Nat :=
  let wk := (dayOfYear y m d + 10 - isoWeekday y m d) / 7
  if wk == 0 then isoWeeksInYear (y - 1)
  else if isoWeeksInYear y < wk then 1
  else wk

/-- The canonical field keys of a day block. -/
inductive FieldName where
  | attendance | activity | priority | startTime | endTime | workTime | descr
deriving DecidableEq

/-- The header-classification cascade of `load_and_clean_data`: case-sensitive
substring tests against the ordered marker list, first match wins. -/
def headerField (header_val : String) : Option FieldName :=
  if containsSub "Attendance" header_val then some .attendance
  else if containsSub "Activity Category" header_val then some .activity
  else if containsSub "Task Priority" header_val then some .priority
  else if containsSub "Start" header_val then some .startTime
  else if containsSub "End" header_val then some .endTime
  else if containsSub "Work Time" header_val || containsSub "Mins" header_val then some .workTime
  else if containsSub "Description" header_val then some .descr
  else none

/-- `if val and val.lower() != 'nan'`: does a stripped date-axis text set
`current_date_str`? -/
def dateSets (v : String) : Bool := v != "" && pyLower v != "nan"

/-- The column scan of `load_and_clean_data` building `col_map`: `n` columns
starting at column `c`, threading `current_date_str` (`cur`). -/
def colMapFrom (dates headers : Nat → Cell) : Option String → Nat → Nat → List (Nat × String × FieldName)
  | _, _, 0 => []
  | cur, c, n + 1 =>
    let v := pyStrip (pyStrCell (dates c))
    let cur2 := if dateSets v then some v else cur
    let rest := colMapFrom dates headers cur2 (c + 1) n
    match cur2, headerField (pyStrip (pyStrCell (headers c))) with
    | some d, some f => (c, d, f) :: rest
    | _, _ => rest

/-- `col_map`: the scan over columns `7 .. total_cols - 1` with row 1 as the
date axis and row 2 as the field axis. -/
def buildColMap (g : Grid) : List (Nat × String × FieldName) :=
  colMapFrom (rowCell g 1) (rowCell g 2) none 7 (g.ncols - 7)

/-- `Series.replace(r'^\s*$', np.nan, regex=True)` on one cell: a string that
is empty or whitespace-only becomes missing. -/
def blankToNA : Cell → Cell
  | none => none
  | some s => if pyStrip s == "" then none else some s

/-- Forward fill carrying the last non-missing value. -/
def ffillAux : Cell → List Cell → List Cell
  | _, [] => []
  | last, none :: rest => last :: ffillAux last rest
  | _, some s :: rest => some s :: ffillAux (some s) rest

/-- `Series.ffill()`. -/
def ffill (l : List Cell) : List Cell := ffillAux none l

/-- A data row after identity-column cleaning: forward-filled employee name
(column 1), forward-filled location (column 2), and the raw cells. -/
structure DRow where
  name : Cell
  loc : Cell
  cells : List Cell
deriving DecidableEq

/-- `data = df_raw.iloc[3:]` with columns 1 and 2 blanked and forward-filled. -/
def dataRows (g : Grid) : List DRow :=
  let raw := g.rows.drop 3
  let names := ffill (raw.map (fun row => blankToNA ((row.get? 1).join)))
  let locs := ffill (raw.map (fun row => blankToNA ((row.get? 2).join)))
  (List.range raw.length).map
    (fun i => ⟨(names.get? i).join, (locs.get? i).join, (raw.get? i).getD []⟩)

/-- `data.dropna(subset=[1])`: discard rows whose employee name is still missing. -/
def keptRows (g : Grid) : List DRow :=
  (dataRows g).filter (fun r => r.name.isSome)

/-- A per-date field bundle (the inner dict of `row_tasks`): `none` means
the key is absent from the dict. -/
abbrev DayBundle := FieldName → Option Cell

/-- The empty bundle `{}`. -/
def emptyBundle : DayBundle := fun _ => none

/-- Dict assignment `bundle[field] = v`. -/
def setB (b : DayBundle) (f : FieldName) (v : Cell) : DayBundle :=
  fun f2 => if f2 = f then some v else b f2

/-- `row_tasks` update: create the date key if absent (at the end, preserving
insertion order), then assign the field. -/
def upsert : List (String × DayBundle) → String → FieldName → Cell → List (String × DayBundle)
  | [], d, f, v => [(d, setB emptyBundle f v)]
  | (d2, b) :: rest, d, f, v =>
    if d2 = d then (d2, setB b f v) :: rest else (d2, b) :: upsert rest d f v

/-- `row[col_idx]` for a data row. -/
def cellAt (r : DRow) (c : Nat) : Cell := (r.cells.get? c).join

/-- The loop over `col_map.items()` building `row_tasks`. -/
def rowTasksAux (cell : Nat → Cell) (acc : List (String × DayBundle)) :
    List (Nat × String × FieldName) → List (String × DayBundle)
  | [] => acc
  | (c, d, f) :: rest => rowTasksAux cell (upsert acc d f (cell c)) rest

/-- `row_tasks` for one data row: date-keyed bundles in insertion order. -/
def rowTasks (cm : List (Nat × String × FieldName)) (cell : Nat → Cell) :
    List (String × DayBundle) :=
  rowTasksAux cell [] cm

/-- `str(task_data.get(key, dflt))` for a string default. -/
def bundleGetS (b : DayBundle) (f : FieldName) (dflt : String) : String :=
  match b f with
  | some c => pyStrCell c
  | none => dflt

/-- `task_data.get(key, dflt)` as a field value. -/
def bundleGetV (b : DayBundle) (f : FieldName) (dflt : PyVal) : PyVal :=
  match b f with
  | some c => cellVal c
  | none => dflt

/-- The drop test of the emission filter: both the stripped activity text and
the stripped description text are empty or (case-insensitively) `"nan"`. -/
def droppedB (b : DayBundle) : Bool :=
  let a := pyStrip (bundleGetS b .activity "")
  let ds := pyStrip (bundleGetS b .descr "")
  (a == "" || pyLower a == "nan") && (ds == "" || pyLower ds == "nan")

/-- One reconstructed task record before post-processing (the dict appended to
`processed_rows`). -/
structure TaskEntry where
  empName : String
  location : Cell
  date : String
  attendance : PyVal
  activity : PyVal
  priority : PyVal
  startTime : PyVal
  endTime : PyVal
  workTime : PyVal
  descr : PyVal
deriving DecidableEq

/-- The `entry` dict built for one (date, bundle) group of a row. -/
def mkEntry (r : DRow) (p : String × DayBundle) : TaskEntry :=
  { empName := r.name.getD ""
    location := r.loc
    date := p.1
    attendance := bundleGetV p.2 .attendance .na
    activity := bundleGetV p.2 .activity .na
    priority := bundleGetV p.2 .priority .na
    startTime := bundleGetV p.2 .startTime .na
    endTime := bundleGetV p.2 .endTime .na
    workTime := bundleGetV p.2 .workTime (.int 0)
    descr := bundleGetV p.2 .descr (.str "") }

/-- The per-row emission loop: group cells by date, filter invalid groups. -/
def entriesOfRow (cm : List (Nat × String × FieldName)) (r : DRow) : List TaskEntry :=
  (rowTasks cm (cellAt r)).filterMap
    (fun p => if droppedB p.2 then none else some (mkEntry r p))

/-- A fully post-processed output record (one row of the returned DataFrame). -/
structure TaskRecord where
  empName : String
  location : Cell
  date : String
  attendance : PyVal
  activity : PyVal
  priority : PyVal
  startTime : PyVal
  endTime : PyVal
  workMins : Rat
  descr : PyVal
  dateObj : Option PDate
  month : Option String
  week : Option Nat
  dayOfWeek : Option String
  isBillable : Bool
deriving DecidableEq

/-- Post-processing of one record: date parsing, derived date columns,
work-time coercion, billing classification. -/
def toRecord (e : TaskEntry) : TaskRecord :=
  let dObj := parse_custom_date e.date
  { empName := e.empName
    location := e.location
    date := e.date
    attendance := e.attendance
    activity := e.activity
    priority := e.priority
    startTime := e.startTime
    endTime := e.endTime
    workMins := clean_minutes e.workTime
    descr := e.descr
    dateObj := dObj
    month := dObj.map (fun dt => monthNameOf dt.month)
    week := dObj.map (fun dt => isoWeek dt.year dt.month dt.day)
    dayOfWeek := dObj.map (fun dt => dayNameOf (dayOfWeekNum dt.year dt.month dt.day))
    isBillable := check_billable e.activity }

/-- `processed_rows`: all emitted task entries in source row order. -/
def processEntries (g : Grid) : List TaskEntry :=
  (keptRows g).flatMap (entriesOfRow (buildColMap g))

/-- The full record set after post-processing. -/
def allRecords (g : Grid) : List TaskRecord :=
  (processEntries g).map toRecord

/-- The body of the big `try` block of `load_and_clean_data`, with its Python
exception points made explicit: `data[1]` and `data[2]` raise `KeyError` when
the frame has fewer than 2 (resp. 3) columns, and `df_raw.iloc[1]` /
`df_raw.iloc[2]` raise `IndexError` when it has fewer than 2 (resp. 3) rows.
An empty reconstruction returns the `"No data found."` message. -/
def processRaw (g : Grid) : Except String (List TaskRecord × Option String) :=
  if g.ncols < 2 then .error "KeyError: 1"
  else if g.ncols < 3 then .error "KeyError: 2"
  else if g.nrows < 2 then .error "single positional indexer is out-of-bounds"
  else if g.nrows < 3 then .error "single positional indexer is out-of-bounds"
  else
    let recs := allRecords g
    if recs.isEmpty then .ok ([], some "No data found.")
    else .ok (recs, none)

/-- `load_and_clean_data`: the input is the outcome of the CSV load (`.error`
models a `pd.read_csv` failure); every internal failure is converted to a
message and an empty record set. -/
def load_and_clean_data (inp : Except String Grid) : List TaskRecord × Option String :=
  match inp with
  | .error e => ([], some ("Error loading CSV: " ++ e))
  | .ok g =>
    match processRaw g with
    | .error e => ([], some ("Error processing data: " ++ e))
    | .ok res => res

/-!  ### Theorems about the embedded parser -/

/-- C2: for every load outcome, `load_and_clean_data` yields a pair; a CSV load
failure yields the empty record set with a message carrying the cause, and an
exception inside the processing block is caught at the boundary and likewise
converted into an empty record set with a message carrying the cause. -/
theorem C2_error_boundary : ∀ inp : Except String Grid,
    (∀ e, inp = Except.error e →
      load_and_clean_data inp = ([], some ("Error loading CSV: " ++ e))) ∧
    (∀ g e, inp = Except.ok g → processRaw g = Except.error e →
      load_and_clean_data inp = ([], some ("Error processing data: " ++ e))) := by
  intro inp
  constructor
  · intro e he
    subst he
    rfl
  · intro g e hg hp
    subst hg
    simp [load_and_clean_data, hp]

/-- Witness for C2: a concrete failed load. -/
theorem C2_error_boundary_witness :
    load_and_clean_data (Except.error "boom") = ([], some "Error loading CSV: boom") :=
  (C2_error_boundary (Except.error "boom")).1 "boom" rfl

/-- C5: `clean_minutes` is total; blank, missing or unparsable input gives 0,
commas are stripped before parsing, and a parsed value — negative included —
is passed through unclamped. -/
theorem C5_clean_minutes_total :
    clean_minutes PyVal.na = 0 ∧
    clean_minutes (PyVal.str "") = 0 ∧
    clean_minutes (PyVal.str "abc") = 0 ∧
    clean_minutes (PyVal.str "1,250") = 1250 ∧
    clean_minutes (PyVal.str "-45") = -45 ∧
    (∀ x, pd_isna x = true → clean_minutes x = 0) ∧
    (∀ x, pyStrip (pyStrVal x) = "" → clean_minutes x = 0) ∧
    (∀ x, pyFloat? (removeCommas (pyStrVal x)) = none → clean_minutes x = 0) ∧
    (∀ x q, pd_isna x = false → pyStrip (pyStrVal x) ≠ "" →
      pyFloat? (removeCommas (pyStrVal x)) = some q → clean_minutes x = q) := by
  refine ⟨by decide, by decide, by decide, by decide, by decide, ?_, ?_, ?_, ?_⟩
  · intro x h
    simp [clean_minutes, h]
  · intro x h
    by_cases hna : pd_isna x <;> simp [clean_minutes, h, hna]
  · intro x h
    by_cases hna : pd_isna x <;> by_cases hb : pyStrip (pyStrVal x) = "" <;>
      simp [clean_minutes, h, hna, hb]
  · intro x q h1 h2 h3
    simp [clean_minutes, h1, h2, h3]

/-- Witness for C5: the negative work-time value `-45` is passed through. -/
theorem C5_clean_minutes_witness :
    pd_isna (PyVal.str "-45") = false ∧ pyStrip (pyStrVal (PyVal.str "-45")) ≠ "" ∧
      clean_minutes (PyVal.str "-45") = -45 :=
  ⟨rfl, by decide,
    C5_clean_minutes_total.2.2.2.2.2.2.2.2 (PyVal.str "-45") (-45) rfl (by decide) (by decide)⟩

/-- C6: `"Sat, Nov 01, 25"` parses to 2025-11-01; ordinal suffixes are removed
by pattern match before parsing; a failing label gives the null date while the
record carrying it is retained (post-processing is one-to-one and keeps the
raw label). -/
theorem C6_date_parsing :
    parse_custom_date "Sat, Nov 01, 25" = some ⟨2025, 11, 1⟩ ∧
    stripOrdinals "Sat, Nov 1st, 25" = "Sat, Nov 1, 25" ∧
    parse_custom_date "Sat, Nov 1st, 25" = some ⟨2025, 11, 1⟩ ∧
    parse_custom_date "Nov 1st, 25" = none ∧
    parse_custom_date "Sat, Feb 30, 25" = none ∧
    (∀ s, parse_custom_date s = pyStrptimeADY (stripOrdinals s)) ∧
    (∀ g, (allRecords g).length = (processEntries g).length) ∧
    (∀ e, (toRecord e).date = e.date ∧ (toRecord e).dateObj = parse_custom_date e.date) := by
  refine ⟨by decide, by decide, by decide, by decide, by decide, fun s => rfl, ?_, fun e => ⟨rfl, rfl⟩⟩
  intro g
  simp [allRecords]

/-- C7: the billing classifier is a function of the category text alone and
returns `true` exactly when the lower-cased text contains one of the four
keywords; the four example categories classify as the spec states. -/
theorem C7_billing_classifier :
    (∀ cat : PyVal, check_billable cat = true ↔
      (containsSub "training" (pyLower (pyStrVal cat)) = true ∨
       containsSub "assessment" (pyLower (pyStrVal cat)) = true ∨
       containsSub "content" (pyLower (pyStrVal cat)) = true ∨
       containsSub "development" (pyLower (pyStrVal cat)) = true)) ∧
    check_billable (PyVal.str "Online Training Session") = true ∧
    check_billable (PyVal.str "Travel") = false ∧
    check_billable (PyVal.str "Content Development") = true ∧
    check_billable (PyVal.str "Admin Sync-up") = false := by
  refine ⟨?_, by decide, by decide, by decide, by decide⟩
  intro cat
  have h1 : pyLower "Training" = "training" := rfl
  have h2 : pyLower "Assessment" = "assessment" := rfl
  have h3 : pyLower "Content" = "content" := rfl
  have h4 : pyLower "Development" = "development" := rfl
  simp [check_billable, billable_keywords, List.any_cons, List.any_nil,
    Bool.or_eq_true, h1, h2, h3, h4]

/-- C9: any grid with fewer than 4 rows produces the empty record set and a
non-null message (either a caught structural exception or `"No data found."`). -/
theorem C9_short_grid : ∀ g : Grid, g.nrows < 4 →
    ∃ m, load_and_clean_data (Except.ok g) = ([], some m) := by
  intro g h
  by_cases h1 : g.ncols < 2
  · have hp : processRaw g = Except.error "KeyError: 1" := by simp [processRaw, h1]
    exact ⟨"Error processing data: KeyError: 1", by simp [load_and_clean_data, hp]⟩
  · by_cases h2 : g.ncols < 3
    · have hp : processRaw g = Except.error "KeyError: 2" := by simp [processRaw, h1, h2]
      exact ⟨"Error processing data: KeyError: 2", by simp [load_and_clean_data, hp]⟩
    · by_cases h3 : g.nrows < 2
      · have hp : processRaw g = Except.error "single positional indexer is out-of-bounds" := by
          simp [processRaw, h1, h2, h3]
        exact ⟨"Error processing data: single positional indexer is out-of-bounds",
          by simp [load_and_clean_data, hp]⟩
      · by_cases h4 : g.nrows < 3
        · have hp : processRaw g = Except.error "single positional indexer is out-of-bounds" := by
            simp [processRaw, h1, h2, h3, h4]
          exact ⟨"Error processing data: single positional indexer is out-of-bounds",
            by simp [load_and_clean_data, hp]⟩
        · have hdrop : g.rows.drop 3 = [] := by
            have hlen : g.rows.length ≤ 3 := by
              unfold Grid.nrows at h
              omega
            exact List.drop_eq_nil_of_le hlen
          have hker : keptRows g = [] := by
            simp [keptRows, dataRows, hdrop]
          have hrec : allRecords g = [] := by
            simp [allRecords, processEntries, hker]
          have hp : processRaw g = Except.ok ([], some "No data found.") := by
            simp [processRaw, h1, h2, h3, h4, hrec]
          exact ⟨"No data found.", by simp [load_and_clean_data, hp]⟩

/-- Witness for C9: the empty grid. -/
theorem C9_short_grid_witness :
    Grid.nrows ⟨[]⟩ < 4 ∧ ∃ m, load_and_clean_data (Except.ok ⟨[]⟩) = ([], some m) :=
  ⟨by decide, C9_short_grid ⟨[]⟩ (by decide)⟩

/-- A grid whose only data row carries the literal text `"NAN"` in its mapped
Activity Category cell (reachable: pandas' NA filter is case-sensitive and
does not cover `"NAN"`). -/
def gridC1 : Grid := ⟨[[],
  [none, none, none, none, none, none, none, some "Sat, Nov 01, 25"],
  [none, none, none, none, none, none, none, some "Activity Category"],
  [some "1", some "Alice", some "BLR", none, none, none, none, some "NAN"]]⟩

/-- C1 counterexample: the single date-label group of the data row has an
Activity Category that is non-empty after trimming (`"NAN"`) and a blank
Description, yet no record is emitted — refuting "a group with either one
non-blank always appears". -/
theorem C1_counterexample :
    rowCell gridC1 3 7 = some "NAN" ∧
    pyStrip "NAN" ≠ "" ∧
    buildColMap gridC1 = [(7, ("Sat, Nov 01, 25", FieldName.activity))] ∧
    (keptRows gridC1).map DRow.name = [some "Alice"] ∧
    allRecords gridC1 = [] := by
  refine ⟨by decide, by decide, by decide, by decide, by decide⟩

/-- A grid whose only non-blank date-axis text sits at column 0, outside the
scanned range, with a marker-matching field-axis cell at column 7. -/
def gridC3a : Grid := ⟨[[],
  [some "X"],
  [none, none, none, none, none, none, none, some "Start"]]⟩

/-- A grid whose date-axis cell at column 7 holds the literal text `"NAN"`
(non-blank after trimming, but rejected by the `val.lower() != 'nan'` guard),
with a marker-matching field-axis cell at column 8. -/
def gridC3b : Grid := ⟨[[],
  [none, none, none, none, none, none, none, some "NAN"],
  [none, none, none, none, none, none, none, none, some "Start"]]⟩

/-- C3 counterexample: in `gridC3a`, column 7's field-axis cell matches a
marker and a date-axis cell at a column index ≤ 7 (namely column 0) is
non-blank after trimming, yet column 7 is not mapped; in `gridC3b`, column 8's
field-axis cell matches and the date-axis cell at column 7 is non-blank after
trimming (`"NAN"`), yet column 8 is not mapped. -/
theorem C3_counterexample :
    (buildColMap gridC3a = [] ∧
      pyStrip (pyStrCell (rowCell gridC3a 1 0)) = "X" ∧
      headerField (pyStrip (pyStrCell (rowCell gridC3a 2 7))) = some FieldName.startTime) ∧
    (buildColMap gridC3b = [] ∧
      pyStrip (pyStrCell (rowCell gridC3b 1 7)) = "NAN" ∧
      headerField (pyStrip (pyStrCell (rowCell gridC3b 2 8))) = some FieldName.startTime) := by
  refine ⟨⟨by decide, by decide, by decide⟩, ⟨by decide, by decide, by decide⟩⟩


/-- The date keys of a `row_tasks` list, in insertion order. -/
def bundleKeys (l : List (String × DayBundle)) : List String := l.map Prod.fst

/-- Dict lookup in a `row_tasks` list. -/
def assocFind : List (String × DayBundle) → String → Option DayBundle
  | [], _ => none
  | (d2, b) :: rest, d => if d2 = d then some b else assocFind rest d

theorem getLastQCons (x : α) (l : List α) : (x :: l).getLast? = some ((l.getLast?).getD x) := by
  induction l generalizing x with
  | nil => rfl
  | cons y t ih =>
    rw [List.getLast?_cons_cons, ih y]
    rfl

theorem memOfGetLastQ {l : List α} {a : α} (h : l.getLast? = some a) : a ∈ l := by
  induction l with
  | nil => simp at h
  | cons x t ih =>
    rw [getLastQCons] at h
    cases ht : t.getLast? with
    | none =>
      rw [ht] at h
      simp at h
      simp [h]
    | some b =>
      rw [ht] at h
      simp at h
      subst h
      exact List.mem_cons_of_mem _ (ih ht)

theorem bundleKeys_upsert (l : List (String × DayBundle)) (d : String) (f : FieldName) (v : Cell) :
    bundleKeys (upsert l d f v) =
      if d ∈ bundleKeys l then bundleKeys l else bundleKeys l ++ [d] := by
  induction l with
  | nil => simp [bundleKeys, upsert]
  | cons p t ih =>
    obtain ⟨d2, b2⟩ := p
    by_cases hd : d2 = d
    · subst hd
      simp [upsert, bundleKeys]
    · have hns : ¬ d = d2 := fun he => hd he.symm
      have hU : bundleKeys (upsert ((d2, b2) :: t) d f v) = d2 :: bundleKeys (upsert t d f v) := by
        simp [upsert, hd, bundleKeys]
      have hK : bundleKeys ((d2, b2) :: t) = d2 :: bundleKeys t := rfl
      rw [hU, ih, hK]
      by_cases hm : d ∈ bundleKeys t
      · rw [if_pos hm, if_pos (List.mem_cons_of_mem _ hm)]
      · rw [if_neg hm, if_neg ?hnm, List.cons_append]
        case hnm =>
          intro hc
          rcases List.mem_cons.mp hc with h1 | h2
          · exact hns h1
          · exact hm h2

theorem nodup_upsert {l : List (String × DayBundle)} (d : String) (f : FieldName) (v : Cell)
    (h : (bundleKeys l).Nodup) : (bundleKeys (upsert l d f v)).Nodup := by
  rw [bundleKeys_upsert]
  split
  · exact h
  · next hm => simp [List.nodup_append, h, hm]

theorem nodup_rowTasksAux (cell : Nat → Cell) :
    ∀ (cm : List (Nat × String × FieldName)) (acc : List (String × DayBundle)),
      (bundleKeys acc).Nodup → (bundleKeys (rowTasksAux cell acc cm)).Nodup := by
  intro cm
  induction cm with
  | nil => intro acc h; exact h
  | cons p t ih =>
    intro acc h
    obtain ⟨c, d, f⟩ := p
    exact ih _ (nodup_upsert d f (cell c) h)

theorem assocFind_mem {l : List (String × DayBundle)} {d : String} {b : DayBundle}
    (hmem : (d, b) ∈ l) (hnd : (bundleKeys l).Nodup) : assocFind l d = some b := by
  induction l with
  | nil => simp at hmem
  | cons p t ih =>
    obtain ⟨d2, b2⟩ := p
    have hnd2 : ¬ d2 ∈ List.map Prod.fst t ∧ (List.map Prod.fst t).Nodup := by
      simpa [bundleKeys, List.nodup_cons] using hnd
    rcases List.mem_cons.mp hmem with heq | htail
    · have h1 : d = d2 := congrArg Prod.fst heq
      have h2 : b = b2 := congrArg Prod.snd heq
      subst h1
      subst h2
      simp [assocFind]
    · have hdkey : d ∈ List.map Prod.fst t := List.mem_map_of_mem Prod.fst htail
      have hne : d2 ≠ d := fun he => hnd2.1 (he ▸ hdkey)
      simp only [assocFind, if_neg hne]
      exact ih htail hnd2.2

theorem mem_assocFind {l : List (String × DayBundle)} {d : String} {b : DayBundle}
    (h : assocFind l d = some b) : (d, b) ∈ l := by
  induction l with
  | nil => simp [assocFind] at h
  | cons p t ih =>
    obtain ⟨d2, b2⟩ := p
    by_cases hd : d2 = d
    · subst hd
      simp [assocFind] at h
      subst h
      exact List.mem_cons_self _ _
    · simp only [assocFind, if_neg hd] at h
      exact List.mem_cons_of_mem _ (ih h)

theorem assocFind_upsert_self (l : List (String × DayBundle)) (d : String) (f : FieldName)
    (v : Cell) :
    assocFind (upsert l d f v) d = some (setB ((assocFind l d).getD emptyBundle) f v) := by
  induction l with
  | nil => simp [upsert, assocFind]
  | cons p t ih =>
    obtain ⟨d2, b2⟩ := p
    by_cases hd : d2 = d
    · subst hd
      simp [upsert, assocFind]
    · simp [upsert, assocFind, hd, ih]

theorem assocFind_upsert_other (l : List (String × DayBundle)) (d q : String) (f : FieldName)
    (v : Cell) (hne : q ≠ d) :
    assocFind (upsert l d f v) q = assocFind l q := by
  have hne2 : ¬ d = q := fun he => hne he.symm
  induction l with
  | nil => simp [upsert, assocFind, hne2]
  | cons p t ih =>
    obtain ⟨d2, b2⟩ := p
    by_cases hd : d2 = d
    · subst hd
      simp [upsert, assocFind, hne2]
    · by_cases hq : d2 = q
      · subst hq
        simp [upsert, assocFind, hd]
      · simp [upsert, assocFind, hd, hq, ih]

theorem rowTasksAux_lastWrite (cell : Nat → Cell) :
    ∀ (cm : List (Nat × String × FieldName)) (acc : List (String × DayBundle))
      (d : String) (b : DayBundle) (fld : FieldName),
      assocFind (rowTasksAux cell acc cm) d = some b →
      b fld = ((cm.filter (fun x => x.2.1 == d && x.2.2 == fld)).getLast?).elim
        (((assocFind acc d).getD emptyBundle) fld) (fun x => some (cell x.1)) := by
  intro cm
  induction cm with
  | nil =>
    intro acc d b fld h
    simp only [rowTasksAux] at h
    simp [Option.elim, h]
  | cons p t ih =>
    intro acc d b fld h
    obtain ⟨c0, d0, f0⟩ := p
    simp only [rowTasksAux] at h
    have IH := ih (upsert acc d0 f0 (cell c0)) d b fld h
    rw [List.filter_cons]
    by_cases hp : ((d0 == d && f0 == fld) = true)
    · have hd0 : d0 = d := eq_of_beq ((Bool.and_eq_true _ _).mp hp).1
      have hf0 : f0 = fld := eq_of_beq ((Bool.and_eq_true _ _).mp hp).2
      subst hd0
      subst hf0
      rw [if_pos hp, getLastQCons]
      simp only [Option.elim]
      cases hl : (t.filter (fun x => x.2.1 == d0 && x.2.2 == f0)).getLast? with
      | some e =>
        rw [hl] at IH
        simp only [Option.elim] at IH
        simpa using IH
      | none =>
        rw [hl] at IH
        simp only [Option.elim] at IH
        rw [assocFind_upsert_self] at IH
        simp only [Option.getD_none]
        simpa [setB] using IH
    · rw [if_neg hp]
      have hbase : ((assocFind (upsert acc d0 f0 (cell c0)) d).getD emptyBundle) fld
          = ((assocFind acc d).getD emptyBundle) fld := by
        by_cases hdd : d0 = d
        · subst hdd
          rw [assocFind_upsert_self]
          have hff : f0 ≠ fld := by
            intro he
            subst he
            simp at hp
          have hff2 : fld ≠ f0 := fun he => hff he.symm
          simp [setB, hff2]
        · have hne : d ≠ d0 := fun he => hdd he.symm
          rw [assocFind_upsert_other acc d0 d f0 (cell c0) hne]
      rw [hbase] at IH
      exact IH

/-- C8: when several columns of the role map carry the same (date, field)
pair, the bundle built for one data row stores, for that field, the value read
from the last such column in the map's scan order, with no error signalled. -/
theorem C8_last_write_wins (cm : List (Nat × String × FieldName)) (cell : Nat → Cell)
    (d : String) (b : DayBundle) (fld : FieldName) (e : Nat × String × FieldName)
    (hmem : (d, b) ∈ rowTasks cm cell)
    (hlast : (cm.filter (fun x => x.2.1 == d && x.2.2 == fld)).getLast? = some e) :
    b fld = some (cell e.1) := by
  have hnd : (bundleKeys (rowTasks cm cell)).Nodup :=
    nodup_rowTasksAux cell cm [] (by simp [bundleKeys])
  have haf : assocFind (rowTasks cm cell) d = some b := assocFind_mem hmem hnd
  have hlw := rowTasksAux_lastWrite cell cm [] d b fld haf
  rw [hlast] at hlw
  simpa [Option.elim] using hlw

/-- A role map with two columns carrying the same (date, field) pair. -/
def cmW8 : List (Nat × String × FieldName) :=
  [(7, ("d", FieldName.startTime)), (8, ("d", FieldName.startTime))]

/-- A row whose cells differ between the two duplicate columns. -/
def cellW8 : Nat → Cell := fun c => if c = 8 then some "B" else some "A"

/-- The bundle built for `cmW8` over `cellW8`. -/
def bW8 : DayBundle :=
  setB (setB emptyBundle FieldName.startTime (cellW8 7)) FieldName.startTime (cellW8 8)

/-- Witness for C8: with duplicate columns 7 and 8, the stored value is the
one read from column 8. -/
theorem C8_last_write_witness :
    ("d", bW8) ∈ rowTasks cmW8 cellW8 ∧ bW8 FieldName.startTime = some (some "B") := by
  have hmem : ("d", bW8) ∈ rowTasks cmW8 cellW8 := by
    show ("d", bW8) ∈ [("d", bW8)]
    exact List.mem_singleton.mpr rfl
  refine ⟨hmem, ?_⟩
  have h := C8_last_write_wins cmW8 cellW8 "d" bW8 FieldName.startTime
    (8, ("d", FieldName.startTime)) hmem (by decide)
  simpa [cellW8] using h

theorem entriesOfRow_mem (cm : List (Nat × String × FieldName)) (r : DRow) (e : TaskEntry) :
    e ∈ entriesOfRow cm r ↔
      ∃ p, p ∈ rowTasks cm (cellAt r) ∧ droppedB p.2 = false ∧ e = mkEntry r p := by
  unfold entriesOfRow
  rw [List.mem_filterMap]
  constructor
  · rintro ⟨p, hp, hfp⟩
    by_cases hd : droppedB p.2
    · simp [hd] at hfp
    · rw [if_neg hd] at hfp
      exact ⟨p, hp, by simpa using hd, (Option.some_inj.mp hfp).symm⟩
  · rintro ⟨p, hp, hd, he⟩
    exact ⟨p, hp, by simp [hd, he]⟩

/-- The emission condition as a proposition on the stripped texts. -/
theorem droppedB_false_iff (b : DayBundle) :
    droppedB b = false ↔
      ((pyStrip (bundleGetS b FieldName.activity "") ≠ "" ∧
        pyLower (pyStrip (bundleGetS b FieldName.activity "")) ≠ "nan") ∨
       (pyStrip (bundleGetS b FieldName.descr "") ≠ "" ∧
        pyLower (pyStrip (bundleGetS b FieldName.descr "")) ≠ "nan")) := by
  rw [Bool.eq_false_iff]
  simp only [droppedB, Ne, Bool.and_eq_true, Bool.or_eq_true, beq_iff_eq]
  tauto

/-- C1 (amended): for a data row and a date-label group of its mapped cells, a
task entry carrying that date is emitted exactly when Activity Category or
Description is non-empty after trimming and its trimmed text is not
(case-insensitively) `"nan"`; otherwise the group is dropped silently. -/
theorem C1_task_emission (cm : List (Nat × String × FieldName)) (r : DRow) (d : String)
    (b : DayBundle) (hmem : (d, b) ∈ rowTasks cm (cellAt r)) :
    (∃ e, e ∈ entriesOfRow cm r ∧ e.date = d) ↔
      ((pyStrip (bundleGetS b FieldName.activity "") ≠ "" ∧
        pyLower (pyStrip (bundleGetS b FieldName.activity "")) ≠ "nan") ∨
       (pyStrip (bundleGetS b FieldName.descr "") ≠ "" ∧
        pyLower (pyStrip (bundleGetS b FieldName.descr "")) ≠ "nan")) := by
  have hnd : (bundleKeys (rowTasks cm (cellAt r))).Nodup :=
    nodup_rowTasksAux (cellAt r) cm [] (by simp [bundleKeys])
  rw [← droppedB_false_iff]
  constructor
  · rintro ⟨e, he, hdate⟩
    rcases (entriesOfRow_mem cm r e).mp he with ⟨⟨d2, b2⟩, hp, hdrop, heq⟩
    have hed : e.date = d2 := by rw [heq]; rfl
    have hd2 : d2 = d := by rw [← hed, hdate]
    subst hd2
    have hb : b2 = b := by
      have h1 := assocFind_mem hp hnd
      have h2 := assocFind_mem hmem hnd
      rw [h1] at h2
      exact Option.some_inj.mp h2
    rw [← hb]
    exact hdrop
  · intro hok
    exact ⟨mkEntry r (d, b), (entriesOfRow_mem cm r _).mpr ⟨(d, b), hmem, hok, rfl⟩, rfl⟩

/-- A one-column role map used by the C1 witness. -/
def cmW1 : List (Nat × String × FieldName) := [(7, ("D1", FieldName.activity))]

/-- A data row whose mapped activity cell holds `"Training"`. -/
def rW1 : DRow :=
  ⟨some "Alice", none, [none, some "Alice", none, none, none, none, none, some "Training"]⟩

/-- The bundle built for `cmW1` over `rW1`. -/
def bW1 : DayBundle := setB emptyBundle FieldName.activity (cellAt rW1 7)

/-- Witness for C1: a group with a non-blank activity text is emitted. -/
theorem C1_task_emission_witness :
    ("D1", bW1) ∈ rowTasks cmW1 (cellAt rW1) ∧
      ∃ e, e ∈ entriesOfRow cmW1 rW1 ∧ e.date = "D1" := by
  have hmem : ("D1", bW1) ∈ rowTasks cmW1 (cellAt rW1) := by
    show ("D1", bW1) ∈ [("D1", bW1)]
    exact List.mem_singleton.mpr rfl
  refine ⟨hmem, (C1_task_emission cmW1 rW1 "D1" bW1 hmem).mpr ?_⟩
  left
  exact ⟨by decide, by decide⟩

theorem le_foldr_max (l : List Nat) : ∀ x ∈ l, x ≤ l.foldr Nat.max 0 := by
  induction l with
  | nil => intro x hx; simp at hx
  | cons a t ih =>
    intro x hx
    rcases List.mem_cons.mp hx with rfl | hx2
    · exact Nat.le_max_left _ _
    · exact Nat.le_trans (ih x hx2) (Nat.le_max_right _ _)

theorem rowCell_pad (g : Grid) (r c : Nat) (h : g.ncols ≤ c) : rowCell g r c = none := by
  unfold rowCell
  cases hr : g.rows.get? r with
  | none => rfl
  | some row =>
    have hrow : row ∈ g.rows := List.get?_mem hr
    have hlen : row.length ≤ g.ncols :=
      le_foldr_max _ _ (List.mem_map_of_mem List.length hrow)
    have hnone : row[c]? = none := List.getElem?_eq_none (Nat.le_trans hlen h)
    simp [hnone]

theorem colMapFrom_lb (D H : Nat → Cell) :
    ∀ (n : Nat) (cur : Option String) (c0 : Nat) (x : Nat × String × FieldName),
      x ∈ colMapFrom D H cur c0 n → c0 ≤ x.1 ∧ x.1 < c0 + n := by
  intro n
  induction n with
  | zero =>
    intro cur c0 x hx
    simp [colMapFrom] at hx
  | succ n ih =>
    intro cur c0 x hx
    simp only [colMapFrom] at hx
    split at hx
    · rcases List.mem_cons.mp hx with heq | hx2
      · subst heq
        exact ⟨le_rfl, by omega⟩
      · have := ih _ (c0 + 1) x hx2
        omega
    · have := ih _ (c0 + 1) x hx
      omega

theorem colMapFrom_mem (D H : Nat → Cell) :
    ∀ (n c0 : Nat) (cur : Option String) (c : Nat),
      (∃ d f, (c, d, f) ∈ colMapFrom D H cur c0 n) ↔
        (c0 ≤ c ∧ c < c0 + n ∧ (headerField (pyStrip (pyStrCell (H c)))).isSome = true ∧
          (cur.isSome = true ∨
            ∃ c2, c0 ≤ c2 ∧ c2 ≤ c ∧ dateSets (pyStrip (pyStrCell (D c2))) = true)) := by
  intro n
  induction n with
  | zero =>
    intro c0 cur c
    constructor
    · rintro ⟨d, f, hm⟩
      simp [colMapFrom] at hm
    · rintro ⟨h1, h2, _⟩
      omega
  | succ n ih =>
    intro c0 cur c
    constructor
    · rintro ⟨d, f, hm⟩
      simp only [colMapFrom] at hm
      split at hm
      · next d0 f0 hcur2 hhf =>
        rcases List.mem_cons.mp hm with heq | htail
        · have hc : c = c0 := congrArg (fun p => p.1) heq
          subst hc
          refine ⟨le_rfl, by omega, by rw [hhf]; rfl, ?_⟩
          by_cases hds : dateSets (pyStrip (pyStrCell (D c))) = true
          · exact Or.inr ⟨c, le_rfl, le_rfl, hds⟩
          · rw [if_neg hds] at hcur2
            exact Or.inl (by rw [hcur2]; rfl)
        · obtain ⟨h1, h2, h3, h4⟩ := (ih (c0 + 1) _ c).mp ⟨d, f, htail⟩
          refine ⟨by omega, by omega, h3, ?_⟩
          rcases h4 with hcs | ⟨c2, hc2a, hc2b, hc2c⟩
          · by_cases hds : dateSets (pyStrip (pyStrCell (D c0))) = true
            · exact Or.inr ⟨c0, le_rfl, by omega, hds⟩
            · rw [if_neg hds] at hcs
              exact Or.inl hcs
          · exact Or.inr ⟨c2, by omega, hc2b, hc2c⟩
      · obtain ⟨h1, h2, h3, h4⟩ := (ih (c0 + 1) _ c).mp ⟨d, f, hm⟩
        refine ⟨by omega, by omega, h3, ?_⟩
        rcases h4 with hcs | ⟨c2, hc2a, hc2b, hc2c⟩
        · by_cases hds : dateSets (pyStrip (pyStrCell (D c0))) = true
          · exact Or.inr ⟨c0, le_rfl, by omega, hds⟩
          · rw [if_neg hds] at hcs
            exact Or.inl hcs
        · exact Or.inr ⟨c2, by omega, hc2b, hc2c⟩
    · rintro ⟨hc0, hlt, hhdr, hcur⟩
      have hcur2 : (if dateSets (pyStrip (pyStrCell (D c0)))
          then some (pyStrip (pyStrCell (D c0))) else cur).isSome = true ∨
          (¬ dateSets (pyStrip (pyStrCell (D c0))) = true ∧ cur.isSome = false ∧
            (if dateSets (pyStrip (pyStrCell (D c0)))
              then some (pyStrip (pyStrCell (D c0))) else cur) = cur) := by
        by_cases hds : dateSets (pyStrip (pyStrCell (D c0))) = true
        · exact Or.inl (by rw [if_pos hds]; rfl)
        · cases hcs : cur.isSome
          · exact Or.inr ⟨hds, rfl, if_neg hds⟩
          · exact Or.inl (by rw [if_neg hds]; exact hcs)
      by_cases hc : c = c0
      · subst hc
        -- the head column itself: current date must be set at column c
        have hset : (if dateSets (pyStrip (pyStrCell (D c)))
            then some (pyStrip (pyStrCell (D c))) else cur).isSome = true := by
          rcases hcur with hcs | ⟨c2, hc2a, hc2b, hc2c⟩
          · by_cases hds : dateSets (pyStrip (pyStrCell (D c))) = true
            · rw [if_pos hds]; rfl
            · rw [if_neg hds]; exact hcs
          · have : c2 = c := Nat.le_antisymm hc2b hc2a
            subst this
            rw [if_pos hc2c]; rfl
        obtain ⟨d0, hd0⟩ := Option.isSome_iff_exists.mp hset
        obtain ⟨f0, hf0⟩ := Option.isSome_iff_exists.mp hhdr
        refine ⟨d0, f0, ?_⟩
        simp only [colMapFrom]
        rw [hd0, hf0]
        exact List.mem_cons_self _ _
      · -- a later column: membership comes from the tail scan
        have htail : ∃ d f, (c, d, f) ∈ colMapFrom D H
            (if dateSets (pyStrip (pyStrCell (D c0)))
              then some (pyStrip (pyStrCell (D c0))) else cur) (c0 + 1) n := by
          rw [ih]
          refine ⟨by omega, by omega, hhdr, ?_⟩
          rcases hcur with hcs | ⟨c2, hc2a, hc2b, hc2c⟩
          · left
            by_cases hds : dateSets (pyStrip (pyStrCell (D c0))) = true
            · rw [if_pos hds]; rfl
            · rw [if_neg hds]; exact hcs
          · by_cases hc2 : c2 = c0
            · subst hc2
              left
              rw [if_pos hc2c]
              rfl
            · exact Or.inr ⟨c2, by omega, hc2b, hc2c⟩
        obtain ⟨d0, f0, hmem⟩ := htail
        refine ⟨d0, f0, ?_⟩
        simp only [colMapFrom]
        split
        · exact List.mem_cons_of_mem _ hmem
        · exact hmem

/-- C3 (amended): a column `c ≥ 7` is recorded in the role map exactly when
its field-axis cell matches a canonical marker and some scanned date-axis cell
at a column `c2` with `7 ≤ c2 ≤ c` has trimmed text that is non-empty and not
(case-insensitively) `"nan"` (the condition that sets `current_date_str`). -/
theorem C3_column_role_map (g : Grid) (c : Nat) (hc : 7 ≤ c) :
    (∃ d f, (c, d, f) ∈ buildColMap g) ↔
      ((headerField (pyStrip (pyStrCell (rowCell g 2 c)))).isSome = true ∧
        ∃ c2, 7 ≤ c2 ∧ c2 ≤ c ∧ dateSets (pyStrip (pyStrCell (rowCell g 1 c2))) = true) := by
  unfold buildColMap
  rw [colMapFrom_mem (rowCell g 1) (rowCell g 2) (g.ncols - 7) 7 none c]
  constructor
  · rintro ⟨h1, h2, h3, h4⟩
    rcases h4 with hfalse | h4
    · simp at hfalse
    · exact ⟨h3, h4⟩
  · rintro ⟨hhdr, c2, hc2a, hc2b, hc2c⟩
    refine ⟨hc, ?_, hhdr, Or.inr ⟨c2, hc2a, hc2b, hc2c⟩⟩
    by_contra hge
    push_neg at hge
    have hcn : g.ncols ≤ c := by omega
    rw [rowCell_pad g 2 c hcn] at hhdr
    have hnan : headerField (pyStrip (pyStrCell (none : Cell))) = none := by decide
    rw [hnan] at hhdr
    simp at hhdr

/-- A grid with a date label at column 7 and a marker header at column 7. -/
def gW3 : Grid := ⟨[[],
  [none, none, none, none, none, none, none, some "Mon, Nov 03, 25"],
  [none, none, none, none, none, none, none, some "Description"]]⟩

/-- Witness for C3: the characterization applied at column 7 of `gW3`. -/
theorem C3_column_role_map_witness :
    7 ≤ 7 ∧
      ((∃ d f, (7, d, f) ∈ buildColMap gW3) ↔
        ((headerField (pyStrip (pyStrCell (rowCell gW3 2 7)))).isSome = true ∧
          ∃ c2, 7 ≤ c2 ∧ c2 ≤ 7 ∧ dateSets (pyStrip (pyStrCell (rowCell gW3 1 c2))) = true)) :=
  ⟨by decide, C3_column_role_map gW3 7 (by decide)⟩

theorem ffillAux_get (a : Cell) (l : List Cell) (i : Nat) :
    (ffillAux a l).get? i =
      (l.get? i).map (fun _ => (((l.take (i + 1)).filterMap id).getLast?).elim a some) := by
  induction l generalizing a i with
  | nil => simp [ffillAux]
  | cons c t ih =>
    cases c with
    | none =>
      cases i with
      | zero => simp [ffillAux, Option.elim]
      | succ i =>
        simp only [ffillAux, List.get?_cons_succ]
        rw [ih]
        simp [List.filterMap_cons]
    | some s =>
      cases i with
      | zero => simp [ffillAux, Option.elim]
      | succ i =>
        simp only [ffillAux, List.get?_cons_succ]
        rw [ih]
        cases hli : t.get? i with
        | none => simp [hli]
        | some c2 =>
          simp only [hli, Option.map_some']
          congr 1
          rw [List.take_succ_cons, List.filterMap_cons]
          simp only [id]
          rw [getLastQCons]
          cases hY : ((t.take (i + 1)).filterMap id).getLast? with
          | none => simp [hY, Option.elim]
          | some v => simp [hY, Option.elim]

theorem ffillAux_mem (a : Cell) (l : List Cell) (c : Cell) (h : c ∈ ffillAux a l) :
    c = a ∨ c ∈ l := by
  induction l generalizing a with
  | nil => simp [ffillAux] at h
  | cons x t ih =>
    cases x with
    | none =>
      simp only [ffillAux] at h
      rcases List.mem_cons.mp h with rfl | h2
      · exact Or.inl rfl
      · rcases ih a h2 with h3 | h3
        · exact Or.inl h3
        · exact Or.inr (List.mem_cons_of_mem _ h3)
    | some s =>
      simp only [ffillAux] at h
      rcases List.mem_cons.mp h with rfl | h2
      · exact Or.inr (List.mem_cons_self _ _)
      · rcases ih (some s) h2 with h3 | h3
        · rw [h3]
          exact Or.inr (List.mem_cons_self _ _)
        · exact Or.inr (List.mem_cons_of_mem _ h3)

theorem dataRows_fields (g : Grid) (r : DRow) (h : r ∈ dataRows g) :
    ∃ i, i < (g.rows.drop 3).length ∧
      r.name = ((ffill ((g.rows.drop 3).map (fun row => blankToNA ((row.get? 1).join)))).get? i).join ∧
      r.loc = ((ffill ((g.rows.drop 3).map (fun row => blankToNA ((row.get? 2).join)))).get? i).join := by
  unfold dataRows at h
  simp only [List.mem_map, List.mem_range] at h
  obtain ⟨i, hi, heq⟩ := h
  refine ⟨i, hi, ?_, ?_⟩
  · rw [← heq]
  · rw [← heq]

theorem name_nonblank_of_kept (g : Grid) (r : DRow) (h : r ∈ keptRows g) :
    ∃ s, r.name = some s ∧ pyStrip s ≠ "" := by
  obtain ⟨hmem, hsome⟩ := List.mem_filter.mp h
  obtain ⟨i, hi, hname, _⟩ := dataRows_fields g r hmem
  cases hgf : (ffill ((g.rows.drop 3).map (fun row => blankToNA ((row.get? 1).join)))).get? i with
  | none =>
    rw [hgf] at hname
    rw [hname] at hsome
    simp at hsome
  | some c =>
    rw [hgf] at hname
    cases c with
    | none =>
      rw [hname] at hsome
      simp at hsome
    | some s =>
      refine ⟨s, by simpa using hname, ?_⟩
      have hmem2 : (some s : Cell) ∈
          ffill ((g.rows.drop 3).map (fun row => blankToNA ((row.get? 1).join))) := by
        have := List.get?_mem hgf
        simpa using this
      rcases ffillAux_mem none _ _ hmem2 with hcon | hmem3
      · simp at hcon
      · obtain ⟨row, hrow, hbl⟩ := List.mem_map.mp hmem3
        cases hcell : ((row.get? 1).join : Cell) with
        | none =>
          rw [hcell] at hbl
          simp [blankToNA] at hbl
        | some s2 =>
          rw [hcell] at hbl
          simp only [blankToNA] at hbl
          by_cases hbs : (pyStrip s2 == "") = true
          · rw [if_pos hbs] at hbl
            simp at hbl
          · rw [if_neg hbs] at hbl
            have hs2 : s2 = s := Option.some_inj.mp hbl
            subst hs2
            simpa using hbs

theorem ffill_get (l : List Cell) (i : Nat) :
    (ffill l).get? i =
      (l.get? i).map (fun _ => ((l.take (i + 1)).filterMap id).getLast?) := by
  unfold ffill
  rw [ffillAux_get]
  cases hli : l.get? i with
  | none => simp
  | some c =>
    simp only [Option.map_some']
    congr 1
    cases hX : ((l.take (i + 1)).filterMap id).getLast? with
    | none => simp [Option.elim]
    | some v => simp [Option.elim]

/-- C4: every emitted record's Employee Name is non-empty and non-whitespace
(blank name cells are treated as absent and forward-filled, and rows still
absent are discarded); forward fill assigns each position the nearest
non-blank value at or above it. -/
theorem C4_employee_name_nonblank :
    (∀ g : Grid, (allRecords g).Forall (fun rec => pyStrip rec.empName ≠ "")) ∧
    (∀ (l : List Cell) (i : Nat),
      (ffill l).get? i = (l.get? i).map (fun _ => ((l.take (i + 1)).filterMap id).getLast?)) := by
  constructor
  · intro g
    rw [List.forall_iff_forall_mem]
    intro rec hrec
    obtain ⟨e, he, hrec2⟩ := List.mem_map.mp hrec
    obtain ⟨r, hr, hee⟩ := List.mem_flatMap.mp he
    obtain ⟨s, hname, hs⟩ := name_nonblank_of_kept g r hr
    have hemp : e.empName = r.name.getD "" := by
      rcases (entriesOfRow_mem _ _ _).mp hee with ⟨p, _, _, heq⟩
      rw [heq]
      rfl
    rw [← hrec2]
    show pyStrip (toRecord e).empName ≠ ""
    have hte : (toRecord e).empName = e.empName := rfl
    rw [hte, hemp, hname]
    simpa using hs
  · intro l i
    exact ffill_get l i

theorem dataRows_get (g : Grid) (i : Nat) (hi : i < (g.rows.drop 3).length) :
    (dataRows g).get? i = some
      ⟨((ffill ((g.rows.drop 3).map (fun row => blankToNA ((row.get? 1).join)))).get? i).join,
       ((ffill ((g.rows.drop 3).map (fun row => blankToNA ((row.get? 2).join)))).get? i).join,
       (((g.rows.drop 3).get? i).getD [])⟩ := by
  unfold dataRows
  rw [List.get?_map, List.get?_range hi]
  rfl

theorem filterMap_take_none (L : List Cell) :
    ∀ i : Nat, (∀ j, j ≤ i → L.get? j = some none ∨ L.get? j = none) →
      (L.take (i + 1)).filterMap id = [] := by
  induction L with
  | nil => intro i h; simp
  | cons c t ih =>
    intro i h
    have h0 := h 0 (Nat.zero_le i)
    have hc : c = none := by
      rcases h0 with h0 | h0
      · exact Option.some_inj.mp h0
      · simp at h0
    subst hc
    cases i with
    | zero => simp
    | succ i =>
      rw [List.take_succ_cons, List.filterMap_cons]
      simp only [id]
      exact ih i (fun j hj => h (j + 1) (by omega))

/-- C10: only a missing Employee Name discards a data row; a row whose
Location is blank on it and on every row above is still kept (when its name is
present), and each of its task entries carries its forward-filled Location,
which is then the absent value. -/
theorem C10_location_not_required :
    (∀ (g : Grid) (r : DRow), r ∈ dataRows g → r.name.isSome = true → r ∈ keptRows g) ∧
    (∀ (cm : List (Nat × String × FieldName)) (r : DRow) (e : TaskEntry),
      e ∈ entriesOfRow cm r → e.location = r.loc) ∧
    (∀ (g : Grid) (i : Nat) (r : DRow), (dataRows g).get? i = some r →
      (∀ j, j ≤ i → blankToNA (((((g.rows.drop 3).get? j).getD []).get? 2).join) = none) →
      r.loc = none) := by
  refine ⟨?_, ?_, ?_⟩
  · intro g r hmem hname
    exact List.mem_filter.mpr ⟨hmem, hname⟩
  · intro cm r e he
    rcases (entriesOfRow_mem _ _ _).mp he with ⟨p, _, _, heq⟩
    rw [heq]
    rfl
  · intro g i r hget hblank
    have hi : i < (g.rows.drop 3).length := by
      by_contra hge
      push_neg at hge
      have hlen : (dataRows g).length = (g.rows.drop 3).length := by
        unfold dataRows
        simp
      have : (dataRows g).get? i = none := by
        rw [List.get?_eq_none, hlen]
        exact hge
      rw [this] at hget
      simp at hget
    have hr := dataRows_get g i hi
    rw [hget] at hr
    have hloc : r.loc =
        ((ffill ((g.rows.drop 3).map (fun row => blankToNA ((row.get? 2).join)))).get? i).join := by
      rw [Option.some_inj.mp hr]
    set L := (g.rows.drop 3).map (fun row => blankToNA ((row.get? 2).join)) with hL
    have hff := ffill_get L i
    have hnone : (L.take (i + 1)).filterMap id = [] := by
      apply filterMap_take_none
      intro j hj
      by_cases hjl : j < (g.rows.drop 3).length
      · left
        rw [hL, List.get?_map]
        cases hrow : (g.rows.drop 3).get? j with
        | none =>
          rw [List.get?_eq_none] at hrow
          omega
        | some row =>
          have hbj := hblank j hj
          rw [hrow] at hbj
          simp only [Option.map_some']
          exact congrArg some hbj
      · right
        rw [List.get?_eq_none]
        rw [hL]
        simp only [List.length_map]
        omega
    rw [hnone] at hff
    simp only [List.getLast?_nil] at hff
    have hLi : L.get? i = some (blankToNA (((((g.rows.drop 3).get? i).getD []).get? 2)).join) := by
      rw [hL, List.get?_map]
      cases hrow : (g.rows.drop 3).get? i with
      | none =>
        rw [List.get?_eq_none] at hrow
        omega
      | some row =>
        simp only [Option.map_some']
        rfl
    rw [hLi] at hff
    simp only [Option.map_some'] at hff
    rw [hloc, hff]
    rfl

/-- A grid whose single data row has a blank Location cell. -/
def gW10 : Grid := ⟨[[],
  [none, none, none, none, none, none, none, some "Sat, Nov 01, 25"],
  [none, none, none, none, none, none, none, some "Activity Category"],
  [some "1", some "Alice", none, none, none, none, none, some "Training"]]⟩

/-- The data row of `gW10` after identity-column cleaning. -/
def rW10 : DRow :=
  ⟨some "Alice", none, [some "1", some "Alice", none, none, none, none, none, some "Training"]⟩

/-- Witness for C10: the blank-location row of `gW10` is kept and its entries
carry the absent location. -/
theorem C10_location_witness :
    (dataRows gW10).get? 0 = some rW10 ∧ rW10 ∈ keptRows gW10 ∧ rW10.loc = none ∧
      ∀ e, e ∈ entriesOfRow (buildColMap gW10) rW10 → e.location = none := by
  have h1 : (dataRows gW10).get? 0 = some rW10 := by decide
  have hmem : rW10 ∈ dataRows gW10 := by
    have := List.get?_mem h1
    exact this
  refine ⟨h1, C10_location_not_required.1 gW10 rW10 hmem (by decide), ?_, ?_⟩
  · exact C10_location_not_required.2.2 gW10 0 rW10 h1
      (fun j hj => by
        have hj0 : j = 0 := by omega
        subst hj0
        decide)
  · intro e he
    rw [C10_location_not_required.2.1 (buildColMap gW10) rW10 e he]
    exact C10_location_not_required.2.2 gW10 0 rW10 h1
      (fun j hj => by
        have hj0 : j = 0 := by omega
        subst hj0
        decide)
